import Mathlib

set_option autoImplicit false

/-!
Verification development for the node-ts-email-builder repository.

Shallow embedding of the core components described in the specification:
the Data Cache (data-loader.ts), the Change Watcher (watcher), the Reload
Coordinator (preview-server.ts), and the Template Store / compiler.
JavaScript objects are modelled as association lists of string keys to
JSON-style values; machine state (caches, heaps) is passed explicitly.
-/

namespace EmailBuilder

/-! ## JavaScript value model

JSON-compatible runtime values, as produced by JSON.parse and object
literals in the source. -/

inductive Jval where
  | jnull
  | jbool (b : Bool)
  | jnum (n : Int)
  | jstr (s : String)
  | jarr (xs : List Jval)
  | jobj (fields : List (String × Jval))
  | jsafe (s : String)
deriving Repr

/- jsafe models a Handlebars SafeString: a wrapper object whose content is
inserted into rendered output without HTML escaping.  It occurs only as
the body slot passed to a layout; JSON data never contains one. -/

/-- Lookup of a key in an association list (JavaScript property read, also
used for Map.get). -/

def lookupKey {κ α : Type} [DecidableEq κ] : List (κ × α) → κ → Option α
  | [], _ => none
  | (k, v) :: rest, key => if k = key then some v else lookupKey rest key

/-- JavaScript property assignment on an object (also Map.set): an existing
key is updated in place (keeping its position), a new key is appended. -/

def setKey {κ α : Type} [DecidableEq κ] : List (κ × α) → κ → α → List (κ × α)
  | [], key, v => [(key, v)]
  | (k, w) :: rest, key, v =>
      if k = key then (k, v) :: rest else (k, w) :: setKey rest key v

/-- JavaScript truthiness of a value (objects, arrays and SafeString
wrappers are always truthy). -/

def jTruthy : Jval → Bool
  | .jnull => false
  | .jbool b => b
  | .jnum n => decide (n ≠ 0)
  | .jstr s => decide (s ≠ "")
  | .jarr _ => true
  | .jobj _ => true
  | .jsafe _ => true

/-! ## Data Cache (data-loader.ts)

The DataLoader keeps two maps, cache and cacheTimestamps, both keyed by
the cache key derived from template name and serialized params.  Cached
values have TypeScript type TemplateData = Record of string to unknown,
modelled as an object field list. -/

structure CacheConfig where
  enabled : Bool
  ttl : Nat
deriving Repr

structure CacheState where
  cache : List (String × List (String × Jval))
  stamps : List (String × Nat)
deriving Repr

/-- Embedding of DataLoader._isCacheValid: caching must be enabled, the key
must be present in the cache, its timestamp must be present, and the age
now - timestamp must be strictly below the ttl. -/

def isCacheValid (cfg : CacheConfig) (st : CacheState) (key : String)
    (now : Nat) : Bool :=
  if !cfg.enabled then false
  else if (lookupKey st.cache key).isNone then false
  else
    match lookupKey st.stamps key with
    | none => false
    | some ts => decide (now - ts < cfg.ttl)

/-- Result of one DataLoader.load call: the returned data, the cache state
afterwards, and whether the underlying source was consulted. -/

structure LoadResult where
  value : List (String × Jval)
  state : CacheState
  touchedSource : Bool
deriving Repr

/-- Embedding of DataLoader.load.  The dispatch on the configured data
source is abstracted into the value fetched, the fetched value: the branch
taken does not affect the caching behaviour.  A valid cached entry is
returned as is; otherwise the source is consulted and, when caching is
enabled, a fresh entry and timestamp are written with Map.set (replacing
any stale entry). -/

def load (cfg : CacheConfig) (st : CacheState) (key : String) (now : Nat)
    (fetched : List (String × Jval)) : LoadResult :=
  match lookupKey st.cache key with
  | some v =>
      if isCacheValid cfg st key now then
        ⟨v, st, false⟩
      else if cfg.enabled then
        ⟨fetched, ⟨setKey st.cache key fetched, setKey st.stamps key now⟩, true⟩
      else ⟨fetched, st, true⟩
  | none =>
      if cfg.enabled then
        ⟨fetched, ⟨setKey st.cache key fetched, setKey st.stamps key now⟩, true⟩
      else ⟨fetched, st, true⟩

/-- Embedding of DataLoader.clearCache: drops all entries and stamps. -/

def clearCache (_st : CacheState) : CacheState := ⟨[], []⟩

/-! ## Change Watcher (watcher)

FileWatcher._parseFilePath classifies a changed file by the first path
segment of its path relative to the templates root, and derives the
template name from the file's base name with the extension stripped.
The kind called "partial" in the source is named fragment here. -/

inductive TemplateKind where
  | layout
  | fragment
  | email
  | unknown
deriving Repr, DecidableEq

/-- Embedding of the classification in FileWatcher._parseFilePath:
dispatch on the first segment of the relative path. -/

def classifyPath (segs : List String) : TemplateKind :=
  if segs.head? = some "layouts" then .layout
  else if segs.head? = some "partials" then .fragment
  else if segs.head? = some "emails" then .email
  else .unknown

/-- Node's path.basename(p, path.extname(p)): strip the extension, where
the extension starts at the last dot of the base name unless that dot is
the leading character. -/

def baseNameNoExt (base : String) : String :=
  let parts := base.splitOn "."
  if parts.length ≤ 1 then base
  else if parts.headD "" = "" ∧ parts.length = 2 then base
  else String.intercalate "." parts.dropLast

/-- Embedding of FileWatcher._parseFilePath over the relative path
segments of the changed file. -/

def parseFilePath (relSegs : List String) : TemplateKind × String :=
  (classifyPath relSegs, baseNameNoExt (relSegs.getLastD ""))

/-- One recorded file change, as stored in the pending set: the raw event
kind, the classified template kind and the derived template name. -/

structure FileChange where
  event : String
  kind : TemplateKind
  name : String
deriving Repr, DecidableEq

/-- JavaScript Set.add on the modelled string set: appends unless already
present. -/

def addToSet (s : List String) (x : String) : List String :=
  if x ∈ s then s else s ++ [x]

/-- The loop body of FileWatcher._emitChanges: accumulate reloadTypes and
changedTemplates over the pending changes. -/

def collectBurst : List FileChange → List String → List String →
    List String × List String
  | [], rt, ct => (rt, ct)
  | c :: rest, rt, ct =>
    match c.kind with
    | .layout => collectBurst rest (addToSet rt "layouts") ct
    | .fragment => collectBurst rest (addToSet rt "partials") ct
    | .email => collectBurst rest rt (addToSet ct c.name)
    | .unknown => collectBurst rest rt ct

/-- The aggregated change event emitted at the end of a debounce window. -/

structure ChangeBurst where
  changes : List FileChange
  reloadTypes : List String
  changedTemplates : List String
  needsFullReload : Bool
deriving Repr, DecidableEq

/-- Embedding of FileWatcher._emitChanges: finalize the pending changes
into one ChangeBurst; needsFullReload holds iff the reloadTypes set is
nonempty. -/

def emitChanges (changes : List FileChange) : ChangeBurst :=
  let rc := collectBurst changes [] []
  ⟨changes, rc.1, rc.2, decide (rc.1.length > 0)⟩

/-! ## Reload Coordinator (preview-server.ts, _setupWatcher)

The burst handler runs, inside one try block, compiler.reload() when
needsFullReload, then dataLoader.clearCache(), then broadcasts a reload
message; the catch broadcasts an error message carrying the failure
message.  The two calls are modelled as effects with an outcome each
(Except String Unit), and the handler as a function returning the trace
of calls actually performed plus the broadcast message; being a total
function, it never lets the exception escape. -/

inductive CoordAction where
  | reloadStore
  | clearDataCache
deriving Repr, DecidableEq

inductive WsMessage where
  | reload
  | errorMsg (message : String)
deriving Repr, DecidableEq

/-- The try block of the burst handler: the calls performed in order, and
the first failure if any. -/

def coordTry (needsFullReload : Bool) (reloadRes clearRes : Except String Unit) :
    List CoordAction × Option String :=
  if needsFullReload then
    match reloadRes with
    | .error e => ([.reloadStore], some e)
    | .ok _ =>
      match clearRes with
      | .error e => ([.reloadStore, .clearDataCache], some e)
      | .ok _ => ([.reloadStore, .clearDataCache], none)
  else
    match clearRes with
    | .error e => ([.clearDataCache], some e)
    | .ok _ => ([.clearDataCache], none)

/-- Embedding of the whole burst handler including its catch: on success
broadcast reload, on failure broadcast the error message. -/

def handleBurst (needsFullReload : Bool)
    (reloadRes clearRes : Except String Unit) : List CoordAction × WsMessage :=
  match coordTry needsFullReload reloadRes clearRes with
  | (acts, none) => (acts, .reload)
  | (acts, some e) => (acts, .errorMsg e)

/-! ## Template Store (Handlebars compiler)

EmailCompiler.compile resolves the body template (through the in-process
template cache and the emails directory), renders it against the caller's
data extended with derived fields, optionally wraps it in a layout with
the body passed as a SafeString, inlines CSS, derives text and extracts a
subject.  Handlebars templates are modelled as lists of segments: literal
text, an escaping variable interpolation, and a helper invocation that
throws at render time (render-time failure). -/

/-- Handlebars HTML escaping of one character. -/

def escapeChar (c : Char) : String :=
  if c = '&' then "&amp;"
  else if c = '<' then "&lt;"
  else if c = '>' then "&gt;"
  else if c = '"' then "&quot;"
  else if c = '\'' then "&#x27;"
  else Char.toString c

def htmlEscape (s : String) : String :=
  String.join (s.data.map escapeChar)

mutual

/-- Default Handlebars stringification of a value. -/

def printJval : Jval → String
  | .jnull => ""
  | .jbool b => cond b "true" "false"
  | .jnum n => toString n
  | .jstr s => s
  | .jsafe s => s
  | .jobj _ => "[object Object]"
  | .jarr xs => printJvalList xs

def printJvalList : List Jval → String
  | [] => ""
  | [x] => printJval x
  | x :: rest => printJval x ++ "," ++ printJvalList rest
end

/-- Interpolation of a value: a SafeString is inserted unescaped, every
other value is stringified and HTML-escaped. -/

def printVar : Jval → String
  | .jsafe s => s
  | v => htmlEscape (printJval v)

/-- A parsed Handlebars template: literal text, a variable interpolation,
or a helper invocation that throws at render time. -/

inductive Seg where
  | lit (s : String)
  | hvar (k : String)
  | hfail (msg : String)
deriving Repr, DecidableEq

/-- Rendering a parsed template against data: concatenate segments,
looking up interpolated variables (a missing key prints empty), failing
with the helper's error when a helper throws. -/

def renderSegs : List Seg → List (String × Jval) → Except String String
  | [], _ => .ok ""
  | .lit s :: rest, data => (renderSegs rest data).map (fun t => s ++ t)
  | .hvar k :: rest, data =>
      (renderSegs rest data).map
        (fun t => printVar ((lookupKey data k).getD Jval.jnull) ++ t)
  | .hfail m :: _, _ => .error m

/-- The templateData construction in EmailCompiler.compile: the spread of
the caller's data followed by the derived fields _templateName, _year and
_timestamp, which therefore overwrite caller-supplied values under those
keys. -/

def mkTemplateData (data : List (String × Jval)) (templateName : String)
    (year : Int) (timestamp : String) : List (String × Jval) :=
  setKey (setKey (setKey data "_templateName" (.jstr templateName))
    "_year" (.jnum year)) "_timestamp" (.jstr timestamp)

/-- The effective layout name: options.layout, else the data's _layout
field unless nullish, else the configured default layout.  The value is
kept as a runtime value because the code reads data._layout untyped. -/

def effLayout (optLayout : Option String) (data : List (String × Jval))
    (defaultLayout : String) : Jval :=
  match optLayout with
  | some l => .jstr l
  | none =>
    match lookupKey data "_layout" with
    | some .jnull => .jstr defaultLayout
    | some v => v
    | none => .jstr defaultLayout

/-- this.layouts.has(layoutName) / get: the layouts map has string keys,
so only a string layout name can match. -/

def layoutsHas (layouts : List (String × List Seg)) : Jval → Option (List Seg)
  | .jstr s => lookupKey layouts s
  | _ => none

/-- Outcome of the file read of the template body. -/

inductive ReadOutcome where
  | content (s : String)
  | notFound
  | failure (msg : String)
deriving Repr, DecidableEq

/-- Errors escaping EmailCompiler.compile: the two error classes raised
by _getTemplate, and an uncaught error propagating from the render call
(which compile does not wrap). -/

inductive EmailError where
  | templateNotFound (name : String)
  | compilationError (msg : String) (name : String)
  | uncaught (msg : String)
deriving Repr, DecidableEq

def EmailError.isCompilationError : EmailError → Bool
  | .compilationError _ _ => true
  | _ => false

structure CompileResult where
  html : String
  text : String
  subject : Option String
deriving Repr, DecidableEq

structure CompileOptions where
  layout : Option String
  inlineCss : Option Bool
deriving Repr, DecidableEq

/-- Embedding of EmailCompiler._getTemplate: a cached template is
returned as is; otherwise the body file is read and parsed, a not-found
read raises TemplateNotFoundError, any other read error or a parse throw
raises CompilationError wrapping the original message, and a parsed
template is stored in the cache. -/

def getTemplate (cache : List (String × List Seg)) (name : String)
    (readRes : ReadOutcome) (parse : String → Except String (List Seg)) :
    Except EmailError (List Seg × List (String × List Seg)) :=
  match lookupKey cache name with
  | some t => .ok (t, cache)
  | none =>
    match readRes with
    | .notFound => .error (.templateNotFound name)
    | .failure m => .error (.compilationError m name)
    | .content s =>
      match parse s with
      | .error m => .error (.compilationError m name)
      | .ok t => .ok (t, setKey cache name t)

/-- The tail of EmailCompiler.compile after the layout stage: CSS is
inlined unless options.inlineCss is explicitly false, the plain text is
derived from the final HTML, and the subject is extracted from it. -/

def finishHtml (opts : CompileOptions) (inlineCss : String → String)
    (toText : String → String) (subjectOf : String → Option String)
    (html : String) : CompileResult :=
  let h := if opts.inlineCss = some false then html else inlineCss html
  ⟨h, toText h, subjectOf h⟩

/-- Embedding of EmailCompiler.compile.  The filesystem read, the
Handlebars parse and the deterministic post-processing stages (juice CSS
inlining, html-to-text conversion, subject extraction) are passed as
parameters; the clock is passed as the derived year and ISO timestamp.
Returns the compile result together with the template cache afterwards.
A render-time throw (body or layout) propagates uncaught. -/

def compileEmail (cache : List (String × List Seg))
    (layouts : List (String × List Seg)) (defaultLayout : String)
    (readRes : ReadOutcome) (parse : String → Except String (List Seg))
    (name : String) (data : List (String × Jval)) (opts : CompileOptions)
    (year : Int) (ts : String) (inlineCss : String → String)
    (toText : String → String) (subjectOf : String → Option String) :
    Except EmailError (CompileResult × List (String × List Seg)) :=
  match getTemplate cache name readRes parse with
  | .error e => .error e
  | .ok (t, cache') =>
    let td := mkTemplateData data name year ts
    match renderSegs t td with
    | .error m => .error (.uncaught m)
    | .ok bodyHtml =>
      let ln := effLayout opts.layout data defaultLayout
      match (if jTruthy ln then layoutsHas layouts ln else none) with
      | some lt =>
        match renderSegs lt (setKey td "body" (.jsafe bodyHtml)) with
        | .error m => .error (.uncaught m)
        | .ok laidOut => .ok (finishHtml opts inlineCss toText subjectOf laidOut, cache')
      | none => .ok (finishHtml opts inlineCss toText subjectOf bodyHtml, cache')

/-- A literal template: only literal text segments, no interpolation and
no helper invocation. -/

def allLit : List Seg → Bool
  | [] => true
  | .lit _ :: rest => allLit rest
  | _ => false

/-- The text of a literal template. -/

def litText : List Seg → String
  | [] => ""
  | .lit s :: rest => s ++ litText rest
  | _ :: rest => litText rest

/-! ## Deep merge (DataLoader._deepMerge) and the JSON data source -/

/-- JavaScript object-spread view of a value: an object contributes its
fields, an array its index-keyed elements, a string its index-keyed
characters, any other primitive nothing. -/

def toSpreadObj : Jval → List (String × Jval)
  | .jobj fs => fs
  | .jarr xs => xs.enum.map (fun p => (toString p.1, p.2))
  | .jstr s => s.data.enum.map
      (fun p => (toString p.1, Jval.jstr (Char.toString p.2)))
  | _ => []

/-- (result[key]) || curly braces: the recursion base passed by
_deepMerge, the current result value when truthy, else a fresh empty
object. -/

def baseFor (acc : List (String × Jval)) (key : String) : Jval :=
  match lookupKey acc key with
  | some v => if jTruthy v then v else Jval.jobj []
  | none => Jval.jobj []

/-- The loop of DataLoader._deepMerge over the source's keys, run on the
spread copy of the target: a source value that is truthy, of object type
and not an array (exactly the jobj constructor) merges recursively into
(result[key] || empty), spread into field form; any other source value is
assigned outright. -/

def mergeFields : List (String × Jval) → List (String × Jval) →
    List (String × Jval)
  | acc, [] => acc
  | acc, (key, Jval.jobj sfs) :: rest =>
      mergeFields (setKey acc key
        (Jval.jobj (mergeFields (toSpreadObj (baseFor acc key)) sfs))) rest
  | acc, (key, v) :: rest => mergeFields (setKey acc key v) rest
termination_by _ l => sizeOf l

/-- Embedding of DataLoader._deepMerge on two objects: the spread copy of
the target updated per key of the source. -/

def deepMerge (target source : List (String × Jval)) :
    List (String × Jval) :=
  mergeFields target source

/-- State of one JSON data file as observed through readFile then
JSON.parse: missing (ENOENT), unreadable for another reason, readable but
not valid JSON, or parsed to a value. -/

inductive JsonFile where
  | absent
  | unreadable (msg : String)
  | invalid (msg : String)
  | valid (v : Jval)
deriving Repr

/-- An error escaping the data loader: either an underlying error
rethrown unchanged, or a constructed DataLoadError (the class the API
path raises). -/

inductive LoadErr where
  | thrown (msg : String)
  | dataLoadError (msg : String) (source : String)
deriving Repr, DecidableEq

def LoadErr.isDataLoadError : LoadErr → Bool
  | .dataLoadError _ _ => true
  | _ => false

def exceptIsDataLoadError : Except LoadErr Jval → Bool
  | .error e => e.isDataLoadError
  | .ok _ => false

/-- allData at the template name, else allData.default, else an empty
object: the truthiness chain over the parsed fallback file. -/

def entryChain (allData : List (String × Jval)) (name : String) : Jval :=
  let second :=
    match lookupKey allData "default" with
    | some v => if jTruthy v then v else Jval.jobj []
    | none => Jval.jobj []
  match lookupKey allData name with
  | some v => if jTruthy v then v else second
  | none => second

/-- Embedding of DataLoader._loadFromJson: try the template-specific
file, rethrowing any non-ENOENT read error and any parse error
unchanged; on ENOENT fall back to sample-data.json with the entry chain,
again rethrowing non-ENOENT read errors and parse errors unchanged; a
missing fallback file yields an empty object.  Property access on a
non-object parsed fallback value goes through its spread fields. -/

def loadFromJson (specFile fallbackFile : JsonFile) (name : String) :
    Except LoadErr Jval :=
  match specFile with
  | .valid v => .ok v
  | .invalid m => .error (.thrown m)
  | .unreadable m => .error (.thrown m)
  | .absent =>
    match fallbackFile with
    | .valid v => .ok (entryChain (toSpreadObj v) name)
    | .invalid m => .error (.thrown m)
    | .unreadable m => .error (.thrown m)
    | .absent => .ok (Jval.jobj [])

/-! ## Heap model of _deepMerge for the frame property of
loadWithOverrides

JavaScript objects live on a heap and are passed by reference; the cache
entry that load returns is such a reference.  _deepMerge builds its
result with an object-literal spread of the target and then assigns into
that fresh object only; it never assigns into the target or the source.
The model makes the mutation explicit: plain objects are heap cells,
other values (primitives, arrays, strings) are carried inline since the
merge never mutates them, and every property write goes through
Heap.write. -/

/-- A runtime reference: an inline non-object value or the address of a
heap-allocated plain object. -/

inductive HRef where
  | prim (v : Jval)
  | addr (a : Nat)
deriving Repr

structure HObj where
  fields : List (String × HRef)
deriving Repr

/-- A heap: the next fresh address and the allocated cells. -/

structure Heap where
  next : Nat
  cells : List (Nat × HObj)
deriving Repr

def Heap.get (h : Heap) (a : Nat) : Option HObj :=
  lookupKey h.cells a

def Heap.alloc (h : Heap) (o : HObj) : Heap × Nat :=
  (⟨h.next + 1, (h.next, o) :: h.cells⟩, h.next)

/-- A property write on an existing object (result[key] = value). -/

def Heap.write (h : Heap) (a : Nat) (k : String) (r : HRef) : Heap :=
  match h.get a with
  | some o => ⟨h.next, setKey h.cells a ⟨setKey o.fields k r⟩⟩
  | none => h

def hTruthy : HRef → Bool
  | .prim v => jTruthy v
  | .addr _ => true

/-- Spread view of a referenced value, for the object-literal spread of
the target: a heap object's fields, an inline array's or string's
index-keyed elements, nothing for other primitives. -/

def spreadFieldsH (h : Heap) : HRef → List (String × HRef)
  | .addr a =>
    match h.get a with
    | some o => o.fields
    | none => []
  | .prim v => (toSpreadObj v).map (fun p => (p.1, HRef.prim p.2))

/-- The fields of the object at res, read live from the heap. -/

def Heap.fieldsAt (h : Heap) (a : Nat) : List (String × HRef) :=
  match h.get a with
  | some o => o.fields
  | none => []

/-- (result[key]) || a fresh empty object: the merge base read live from
the result object; the fresh empty object is modelled as an inline null,
whose spread is empty. -/

def mergeBase (h : Heap) (res : Nat) (k : String) : HRef :=
  match lookupKey (h.fieldsAt res) k with
  | some tv => if hTruthy tv then tv else .prim Jval.jnull
  | none => .prim Jval.jnull

mutual

/-- Embedding of _deepMerge over the explicit heap: allocate the spread
copy of the target, then walk the source's fields, merging or assigning
each value into the fresh result object.  Fuel bounds the recursion
depth; the source condition (truthy, object-typed, not an array) is
exactly an object address in this model. -/

def deepMergeH : Nat → Heap → HRef → HRef → Option (Heap × Nat)
  | 0, _, _, _ => none
  | fuel + 1, h, tRef, sRef =>
    let ar := h.alloc ⟨spreadFieldsH h tRef⟩
    match mergeLoopH fuel ar.1 ar.2 (spreadFieldsH h sRef) with
    | some h2 => some (h2, ar.2)
    | none => none

/-- The for-of loop over the source's keys: result[key] || a fresh empty
object (modelled as an inline null, whose spread is empty) is merged
with an object-valued source entry, any other source value is assigned
outright. -/

def mergeLoopH : Nat → Heap → Nat → List (String × HRef) → Option Heap
  | _, h, _, [] => some h
  | 0, _, _, _ :: _ => none
  | fuel + 1, h, res, (k, sv) :: rest =>
    match sv with
    | .addr _ =>
      match deepMergeH fuel h (mergeBase h res k) sv with
      | some (h2, m) => mergeLoopH fuel (h2.write res k (.addr m)) res rest
      | none => none
    | _ => mergeLoopH fuel (h.write res k sv) res rest
end

mutual

/-- Materialize the structural value behind a reference: what a caller
observes when it reads the data. -/

def readValH : Nat → Heap → HRef → Option Jval
  | _, _, .prim v => some v
  | 0, _, .addr _ => none
  | fuel + 1, h, .addr a =>
    match h.get a with
    | none => none
    | some o =>
      match readFieldsH fuel h o.fields with
      | some fs => some (Jval.jobj fs)
      | none => none

def readFieldsH : Nat → Heap → List (String × HRef) →
    Option (List (String × Jval))
  | _, _, [] => some []
  | 0, _, _ :: _ => none
  | fuel + 1, h, (k, r) :: rest =>
    match readValH fuel h r, readFieldsH fuel h rest with
    | some v, some vs => some ((k, v) :: vs)
    | _, _ => none
end

def refBelow (n : Nat) : HRef → Bool
  | .addr b => decide (b < n)
  | .prim _ => true

/-- A well-formed heap: every allocated cell sits below next and holds
only references below next. -/

def Heap.closedB (h : Heap) : Bool :=
  h.cells.all fun c =>
    decide (c.1 < h.next) && c.2.fields.all fun kv => refBelow h.next kv.2

/-- The concrete heap of the witness: the cache entry at address 1 holds
a mapsto the inner object at address 0 (b 1, c 2); the overrides at
address 3 hold a mapsto the inner object at address 2 (b 9). -/

def wHeap : Heap :=
  ⟨4, [(0, ⟨[("b", .prim (Jval.jnum 1)), ("c", .prim (Jval.jnum 2))]⟩),
       (1, ⟨[("a", .addr 0)]⟩),
       (2, ⟨[("b", .prim (Jval.jnum 9))]⟩),
       (3, ⟨[("a", .addr 2)]⟩)]⟩

theorem lookupKey_setKey {κ α : Type} [DecidableEq κ] (l : List (κ × α))
    (k k' : κ) (v : α) :
    lookupKey (setKey l k v) k' = if k' = k then some v else lookupKey l k' := by
  induction l with
  | nil =>
    simp only [setKey, lookupKey]
    by_cases h : k = k'
    · rw [if_pos h, if_pos h.symm]
    · rw [if_neg h, if_neg (fun hh => h hh.symm)]
  | cons p rest ih =>
    obtain ⟨a, b⟩ := p
    simp only [setKey]
    by_cases hak : a = k
    · subst hak
      simp only [if_pos rfl, lookupKey]
      by_cases hk' : k' = a
      · subst hk'; simp
      · rw [if_neg (fun hh => hk' hh.symm), if_neg hk',
          if_neg (fun hh => hk' hh.symm)]
    · simp only [lookupKey, if_neg hak]
      by_cases hk' : a = k'
      · subst hk'
        rw [if_pos rfl, if_neg (fun hh : a = k => hak hh), if_pos rfl]
      · rw [if_neg hk', if_neg hk', ih]

theorem lookupKey_mem {κ α : Type} [DecidableEq κ] (l : List (κ × α))
    (k : κ) (v : α) (h : lookupKey l k = some v) : (k, v) ∈ l := by
  induction l with
  | nil => simp [lookupKey] at h
  | cons p rest ih =>
    obtain ⟨a, b⟩ := p
    simp only [lookupKey] at h
    by_cases hak : a = k
    · subst hak
      rw [if_pos rfl] at h
      obtain rfl : b = v := Option.some.inj h
      exact List.mem_cons_self _ _
    · rw [if_neg hak] at h
      exact List.mem_cons_of_mem _ (ih h)

/-- C1: a stored entry (present with its timestamp) is valid iff caching is
enabled and now - insertedAt < ttl; load returns a valid entry without
touching the source and without changing the state; on any miss it
consults the source and, when caching is enabled, replaces the entry and
its timestamp with a fresh write. -/

theorem cache_validity_invariant (cfg : CacheConfig) (st : CacheState)
    (key : String) (now : Nat) (fetched : List (String × Jval)) :
    (∀ ts, lookupKey st.stamps key = some ts →
      (lookupKey st.cache key).isSome = true →
      (isCacheValid cfg st key now = true ↔
        cfg.enabled = true ∧ now - ts < cfg.ttl)) ∧
    (isCacheValid cfg st key now = true →
      (load cfg st key now fetched).touchedSource = false ∧
      (load cfg st key now fetched).state = st ∧
      lookupKey st.cache key = some (load cfg st key now fetched).value) ∧
    (isCacheValid cfg st key now = false →
      (load cfg st key now fetched).value = fetched ∧
      (load cfg st key now fetched).touchedSource = true ∧
      (cfg.enabled = true →
        (load cfg st key now fetched).state =
          ⟨setKey st.cache key fetched, setKey st.stamps key now⟩)) := by
  refine ⟨?_, ?_, ?_⟩
  · intro ts hts hsome
    unfold isCacheValid
    rcases henabled : cfg.enabled with _ | _
    · simp [henabled]
    · rcases hc : lookupKey st.cache key with _ | v
      · rw [hc] at hsome; simp at hsome
      · simp [hc, hts]
  · intro hvalid
    have hsome : (lookupKey st.cache key).isSome = true := by
      by_contra hnone
      unfold isCacheValid at hvalid
      rcases henabled : cfg.enabled with _ | _
      · rw [henabled] at hvalid; simp at hvalid
      · rw [henabled] at hvalid
        simp only [Bool.not_true, if_neg] at hvalid
        have : (lookupKey st.cache key).isNone = true := by
          rcases h : lookupKey st.cache key with _ | v
          · rfl
          · exact absurd (by rw [h]; rfl) hnone
        simp [this] at hvalid
    rcases hc : lookupKey st.cache key with _ | v
    · rw [hc] at hsome; simp at hsome
    · simp [load, hc, hvalid]
  · intro hinvalid
    rcases hc : lookupKey st.cache key with _ | v <;>
      rcases hen : cfg.enabled with _ | _ <;>
      simp [load, hc, hinvalid, hen]

/-- Witness for C1 at a concrete cache state: a still-fresh entry
(ttl 10, inserted at 0, read at 9) is served from the cache. -/

theorem cache_validity_invariant_witness :
    (load ⟨true, 10⟩ ⟨[("k", [("a", Jval.jnum 1)])], [("k", 0)]⟩ "k" 9
        []).touchedSource = false ∧
    (load ⟨true, 10⟩ ⟨[("k", [("a", Jval.jnum 1)])], [("k", 0)]⟩ "k" 9
        []).state = ⟨[("k", [("a", Jval.jnum 1)])], [("k", 0)]⟩ := by
  have h := cache_validity_invariant ⟨true, 10⟩
    ⟨[("k", [("a", Jval.jnum 1)])], [("k", 0)]⟩ "k" 9 []
  have h2 := h.2.1 (by decide)
  exact ⟨h2.1, h2.2.1⟩

theorem mem_addToSet (s : List String) (x y : String) :
    y ∈ addToSet s x ↔ y ∈ s ∨ y = x := by
  unfold addToSet
  by_cases h : x ∈ s
  · simp only [if_pos h]
    constructor
    · exact Or.inl
    · rintro (hy | rfl)
      · exact hy
      · exact h
  · simp [if_neg h]

theorem collect_mem_reloadTypes (l : List FileChange) :
    ∀ rt ct y, y ∈ (collectBurst l rt ct).1 ↔
      y ∈ rt ∨ (y = "layouts" ∧ ∃ c ∈ l, c.kind = TemplateKind.layout) ∨
        (y = "partials" ∧ ∃ c ∈ l, c.kind = TemplateKind.fragment) := by
  induction l with
  | nil => intro rt ct y; simp [collectBurst]
  | cons c rest ih =>
    intro rt ct y
    rcases hk : c.kind with _ | _ | _ | _ <;>
      simp only [collectBurst, hk, ih, mem_addToSet, List.mem_cons] <;>
      aesop

theorem collect_mem_changedTemplates (l : List FileChange) :
    ∀ rt ct n, n ∈ (collectBurst l rt ct).2 ↔
      n ∈ ct ∨ ∃ c ∈ l, c.kind = TemplateKind.email ∧ c.name = n := by
  induction l with
  | nil => intro rt ct n; simp [collectBurst]
  | cons c rest ih =>
    intro rt ct n
    rcases hk : c.kind with _ | _ | _ | _ <;>
      simp only [collectBurst, hk, ih, mem_addToSet, List.mem_cons] <;>
      aesop

/-- C2: for every finalized change burst, needsFullReload holds iff some
change in the burst is classified as a layout or a fragment (partial);
changedTemplates contains exactly the names of the changed email
templates; reloadTypes contains "layouts" iff the burst touched a layout
and "partials" iff it touched a fragment (so a layout-and-email burst has
the email's name in changedTemplates and "layouts" in reloadTypes); and
classification is by the first path segment (layouts, partials, emails,
otherwise unknown). -/

theorem burst_needs_full_reload_iff (changes : List FileChange)
    (n s : String) (segs : List String) :
    ((emitChanges changes).needsFullReload = true ↔
      ∃ c ∈ changes, c.kind = TemplateKind.layout ∨
        c.kind = TemplateKind.fragment) ∧
    (n ∈ (emitChanges changes).changedTemplates ↔
      ∃ c ∈ changes, c.kind = TemplateKind.email ∧ c.name = n) ∧
    ("layouts" ∈ (emitChanges changes).reloadTypes ↔
      ∃ c ∈ changes, c.kind = TemplateKind.layout) ∧
    ("partials" ∈ (emitChanges changes).reloadTypes ↔
      ∃ c ∈ changes, c.kind = TemplateKind.fragment) ∧
    classifyPath ("layouts" :: segs) = TemplateKind.layout ∧
    classifyPath ("partials" :: segs) = TemplateKind.fragment ∧
    classifyPath ("emails" :: segs) = TemplateKind.email ∧
    (s ≠ "layouts" → s ≠ "partials" → s ≠ "emails" →
      classifyPath (s :: segs) = TemplateKind.unknown) := by
  refine ⟨?_, ?_, ?_, ?_, rfl, rfl, rfl, ?_⟩
  · constructor
    · intro h
      simp only [emitChanges, decide_eq_true_eq] at h
      obtain ⟨y, hy⟩ := List.exists_mem_of_length_pos h
      have := (collect_mem_reloadTypes changes [] [] y).mp hy
      simp only [List.not_mem_nil, false_or] at this
      rcases this with ⟨-, c, hc, hk⟩ | ⟨-, c, hc, hk⟩
      · exact ⟨c, hc, Or.inl hk⟩
      · exact ⟨c, hc, Or.inr hk⟩
    · rintro ⟨c, hc, hk | hk⟩
      · have : "layouts" ∈ (collectBurst changes [] []).1 :=
          (collect_mem_reloadTypes changes [] [] "layouts").mpr
            (Or.inr (Or.inl ⟨rfl, c, hc, hk⟩))
        simp only [emitChanges, decide_eq_true_eq]
        exact List.length_pos_of_mem this
      · have : "partials" ∈ (collectBurst changes [] []).1 :=
          (collect_mem_reloadTypes changes [] [] "partials").mpr
            (Or.inr (Or.inr ⟨rfl, c, hc, hk⟩))
        simp only [emitChanges, decide_eq_true_eq]
        exact List.length_pos_of_mem this
  · have hct := collect_mem_changedTemplates changes [] [] n
    simp only [List.not_mem_nil, false_or] at hct
    exact hct
  · have hm := collect_mem_reloadTypes changes [] [] "layouts"
    simp only [List.not_mem_nil, false_or] at hm
    constructor
    · intro h
      rcases hm.mp h with ⟨-, c, hc, hk⟩ | ⟨hbad, -⟩
      · exact ⟨c, hc, hk⟩
      · exact absurd hbad (by decide)
    · rintro ⟨c, hc, hk⟩
      exact hm.mpr (Or.inl ⟨trivial, c, hc, hk⟩)
  · have hm := collect_mem_reloadTypes changes [] [] "partials"
    simp only [List.not_mem_nil, false_or] at hm
    constructor
    · intro h
      rcases hm.mp h with ⟨hbad, -⟩ | ⟨-, c, hc, hk⟩
      · exact absurd hbad (by decide)
      · exact ⟨c, hc, hk⟩
    · rintro ⟨c, hc, hk⟩
      exact hm.mpr (Or.inr ⟨trivial, c, hc, hk⟩)
  · intro h1 h2 h3
    simp [classifyPath, h1, h2, h3]

/-- Witness for C2: a burst touching one layout file and one email file
has needsFullReload set, the email's name in changedTemplates and
"layouts" in reloadTypes; and an unrecognized first segment classifies as
unknown. -/

theorem burst_needs_full_reload_iff_witness :
    (emitChanges [⟨"change", TemplateKind.layout, "default"⟩,
        ⟨"change", TemplateKind.email, "welcome"⟩]).needsFullReload = true ∧
    "welcome" ∈ (emitChanges [⟨"change", TemplateKind.layout, "default"⟩,
        ⟨"change", TemplateKind.email, "welcome"⟩]).changedTemplates ∧
    "layouts" ∈ (emitChanges [⟨"change", TemplateKind.layout, "default"⟩,
        ⟨"change", TemplateKind.email, "welcome"⟩]).reloadTypes ∧
    classifyPath ["foo", "a.hbs"] = TemplateKind.unknown := by
  have h := burst_needs_full_reload_iff
    [⟨"change", TemplateKind.layout, "default"⟩,
      ⟨"change", TemplateKind.email, "welcome"⟩] "welcome" "foo" ["a.hbs"]
  refine ⟨?_, ?_, ?_, ?_⟩
  · exact h.1.mpr ⟨⟨"change", TemplateKind.layout, "default"⟩, by simp, Or.inl rfl⟩
  · exact h.2.1.mpr ⟨⟨"change", TemplateKind.email, "welcome"⟩, by simp, rfl, rfl⟩
  · exact h.2.2.1.mpr ⟨⟨"change", TemplateKind.layout, "default"⟩, by simp, rfl⟩
  · exact h.2.2.2.2.2.2.2 (by decide) (by decide) (by decide)

/-- C3: the Template Store reload is invoked exactly when needsFullReload;
when the reload step does not fail, clearCache is invoked regardless of
the burst type and strictly after the reload; observers get the reload
signal iff every performed step succeeded, and otherwise the error
message of the failing step; the handler is a total function, so the
exception never escapes the burst handler. -/

theorem coordinator_reaction (nfr : Bool) (rr cr : Except String Unit) :
    (CoordAction.reloadStore ∈ (handleBurst nfr rr cr).1 ↔ nfr = true) ∧
    ((nfr = true → rr = .ok ()) →
      (handleBurst nfr rr cr).1 =
        (if nfr then [.reloadStore, .clearDataCache] else [.clearDataCache])) ∧
    ((handleBurst nfr rr cr).2 = .reload ↔
      (nfr = true → rr = .ok ()) ∧ cr = .ok ()) ∧
    (∀ e, nfr = true → rr = .error e → (handleBurst nfr rr cr).2 = .errorMsg e) ∧
    (∀ e, (nfr = true → rr = .ok ()) → cr = .error e →
      (handleBurst nfr rr cr).2 = .errorMsg e) := by
  rcases nfr with _ | _ <;>
    rcases rr with e | u <;>
    rcases cr with e' | u' <;>
    simp [handleBurst, coordTry]

/-- Witness for C3: with a full-reload burst whose reload succeeds but
whose cache clear fails, both calls happen in order and the error message
is broadcast. -/

theorem coordinator_reaction_witness :
    (handleBurst true (.ok ()) (.error "boom")).1 =
      [CoordAction.reloadStore, CoordAction.clearDataCache] ∧
    (handleBurst true (.ok ()) (.error "boom")).2 = .errorMsg "boom" := by
  have h := coordinator_reaction true (.ok ()) (.error "boom")
  refine ⟨?_, ?_⟩
  · simpa using h.2.1 (fun _ => rfl)
  · exact h.2.2.2.2 "boom" (fun _ => rfl) rfl

/-- C4 counterexample: the claim that a caller-supplied value under a
derived key is preserved fails.  With caller data holding _year = 1999
and the derived year 2025, the render input carries 2025, not the
caller's 1999. -/

theorem derived_fields_cex :
    lookupKey (mkTemplateData [("_year", Jval.jnum 1999)] "welcome" 2025
      "2025-01-01T00:00:00.000Z") "_year" = some (Jval.jnum 2025) ∧
    some (Jval.jnum 2025) ≠ some (Jval.jnum 1999) :=
  ⟨rfl, by simp⟩

/-- C4 (amended): compile renders the body against the caller's data
merged with the derived fields current year, ISO timestamp and template
name; the derived fields are injected by the store and always overwrite
same-named caller-supplied fields (the spread places them last); every
other key is taken unchanged from the caller's data. -/

theorem derived_fields_injection (data : List (String × Jval))
    (name : String) (year : Int) (ts : String) (k : String) :
    lookupKey (mkTemplateData data name year ts) "_templateName" =
      some (Jval.jstr name) ∧
    lookupKey (mkTemplateData data name year ts) "_year" =
      some (Jval.jnum year) ∧
    lookupKey (mkTemplateData data name year ts) "_timestamp" =
      some (Jval.jstr ts) ∧
    (k ≠ "_templateName" → k ≠ "_year" → k ≠ "_timestamp" →
      lookupKey (mkTemplateData data name year ts) k = lookupKey data k) := by
  unfold mkTemplateData
  refine ⟨?_, ?_, ?_, ?_⟩
  · simp [lookupKey_setKey]
  · simp [lookupKey_setKey]
  · simp [lookupKey_setKey]
  · intro h1 h2 h3
    simp [lookupKey_setKey, h1, h2, h3]

/-- Witness for the amended C4 at concrete data: an unrelated caller key
survives and the derived year is present. -/

theorem derived_fields_injection_witness :
    lookupKey (mkTemplateData [("user", Jval.jstr "Ann")] "welcome" 2025 "T")
      "user" = some (Jval.jstr "Ann") ∧
    lookupKey (mkTemplateData [("user", Jval.jstr "Ann")] "welcome" 2025 "T")
      "_year" = some (Jval.jnum 2025) := by
  have h := derived_fields_injection [("user", Jval.jstr "Ann")] "welcome"
    2025 "T" "user"
  refine ⟨?_, h.2.1⟩
  rw [h.2.2.2 (by decide) (by decide) (by decide)]
  rfl

theorem getTemplate_notFound_iff (cache : List (String × List Seg))
    (name : String) (readRes : ReadOutcome)
    (parse : String → Except String (List Seg)) :
    getTemplate cache name readRes parse =
        .error (.templateNotFound name) ↔
      lookupKey cache name = none ∧ readRes = .notFound := by
  unfold getTemplate
  rcases hl : lookupKey cache name with _ | t
  · rcases readRes with s | _ | m
    · rcases hp : parse s with m | t <;> simp [hp]
    · simp
    · simp
  · simp

/-- C5 counterexample: a template that parses but whose render throws is
not surfaced as a CompilationError: the original error propagates
uncaught out of compile. -/

theorem compile_error_classification_cex :
    compileEmail [] [] "default" (.content "tpl")
        (fun _ => .ok [Seg.hfail "boom"]) "welcome" [] ⟨none, none⟩ 2025 "T"
        id (fun _ => "") (fun _ => none) =
      .error (.uncaught "boom") ∧
    (EmailError.uncaught "boom").isCompilationError = false :=
  ⟨rfl, rfl⟩

/-- C5 (amended): compile fails with TemplateNotFound iff the template is
not in the in-process template cache and the body file read reports
not-found; an uncached read failure or a parse throw is wrapped as a
CompilationError carrying the original message; a render-time failure is
not wrapped: the original error propagates uncaught (and is not a
CompilationError), so compile fails rather than returning output. -/

theorem compile_error_classification (cache layouts : List (String × List Seg))
    (dl : String) (readRes : ReadOutcome)
    (parse : String → Except String (List Seg)) (name : String)
    (data : List (String × Jval)) (opts : CompileOptions) (year : Int)
    (ts : String) (ic tt : String → String) (so : String → Option String)
    (m s m' m'' : String) (t : List Seg) (cache₂ : List (String × List Seg)) :
    (compileEmail cache layouts dl readRes parse name data opts year ts
        ic tt so = .error (.templateNotFound name) ↔
      lookupKey cache name = none ∧ readRes = .notFound) ∧
    (lookupKey cache name = none → readRes = .failure m →
      compileEmail cache layouts dl readRes parse name data opts year ts
        ic tt so = .error (.compilationError m name)) ∧
    (lookupKey cache name = none → readRes = .content s →
      parse s = .error m' →
      compileEmail cache layouts dl readRes parse name data opts year ts
        ic tt so = .error (.compilationError m' name)) ∧
    (getTemplate cache name readRes parse = .ok (t, cache₂) →
      renderSegs t (mkTemplateData data name year ts) = .error m'' →
      compileEmail cache layouts dl readRes parse name data opts year ts
          ic tt so = .error (.uncaught m'') ∧
        (EmailError.uncaught m'').isCompilationError = false) := by
  refine ⟨⟨?_, ?_⟩, ?_, ?_, ?_⟩
  · intro h
    rw [← getTemplate_notFound_iff cache name readRes parse]
    rcases hg : getTemplate cache name readRes parse with e | p
    · simp only [compileEmail, hg] at h
      injection h with he
      rw [he]
    · exfalso
      obtain ⟨t', c₂⟩ := p
      rcases hr : renderSegs t' (mkTemplateData data name year ts) with m₀ | body
      · simp [compileEmail, hg, hr] at h
      · rcases hlay : (if jTruthy (effLayout opts.layout data dl) then
            layoutsHas layouts (effLayout opts.layout data dl) else none)
          with _ | lt
        · simp [compileEmail, hg, hr, hlay] at h
        · rcases hr2 : renderSegs lt (setKey (mkTemplateData data name year ts)
              "body" (.jsafe body)) with m₁ | lout
          · simp [compileEmail, hg, hr, hlay, hr2] at h
          · simp [compileEmail, hg, hr, hlay, hr2] at h
  · rintro ⟨h1, h2⟩
    have hget := (getTemplate_notFound_iff cache name readRes parse).mpr ⟨h1, h2⟩
    simp [compileEmail, hget]
  · intro h1 h2
    have hget : getTemplate cache name readRes parse =
        .error (.compilationError m name) := by
      simp [getTemplate, h1, h2]
    simp [compileEmail, hget]
  · intro h1 h2 h3
    have hget : getTemplate cache name readRes parse =
        .error (.compilationError m' name) := by
      simp [getTemplate, h1, h2, h3]
    simp [compileEmail, hget]
  · intro hg hr
    exact ⟨by simp [compileEmail, hg, hr], rfl⟩

/-- Witness for the amended C5: a missing body file with an empty cache
yields TemplateNotFound, and an unreadable body file yields a
CompilationError wrapping the read error. -/

theorem compile_error_classification_witness :
    compileEmail [] [] "default" .notFound (fun _ => .ok []) "welcome" []
        ⟨none, none⟩ 2025 "T" id (fun _ => "") (fun _ => none) =
      .error (.templateNotFound "welcome") ∧
    compileEmail [] [] "default" (.failure "EACCES") (fun _ => .ok [])
        "welcome" [] ⟨none, none⟩ 2025 "T" id (fun _ => "") (fun _ => none) =
      .error (.compilationError "EACCES" "welcome") := by
  constructor
  · exact (compile_error_classification [] [] "default" .notFound
      (fun _ => .ok []) "welcome" [] ⟨none, none⟩ 2025 "T" id (fun _ => "")
      (fun _ => none) "m" "s" "m" "m" [] []).1.mpr ⟨rfl, rfl⟩
  · exact (compile_error_classification [] [] "default" (.failure "EACCES")
      (fun _ => .ok []) "welcome" [] ⟨none, none⟩ 2025 "T" id (fun _ => "")
      (fun _ => none) "EACCES" "s" "m" "m" [] []).2.1 rfl rfl

/-- C8: the effective layout name is resolved with precedence
options.layout, then the _layout field inside the data, then the
configured default layout; when a layout with the resolved name exists
the rendered body is inserted unescaped (as a SafeString) into the
layout's body slot; when it does not exist the body output stands alone
and the compile succeeds without error. -/

theorem layout_resolution (cache layouts : List (String × List Seg))
    (dl : String) (readRes : ReadOutcome)
    (parse : String → Except String (List Seg)) (name : String)
    (data : List (String × Jval)) (opts : CompileOptions) (year : Int)
    (ts : String) (ic tt : String → String) (so : String → Option String)
    (l s bodyHtml lh : String) (t lt : List Seg)
    (cache₂ : List (String × List Seg)) :
    (opts.layout = some l → effLayout opts.layout data dl = .jstr l) ∧
    (opts.layout = none → lookupKey data "_layout" = some (.jstr s) →
      effLayout opts.layout data dl = .jstr s) ∧
    (opts.layout = none → lookupKey data "_layout" = none →
      effLayout opts.layout data dl = .jstr dl) ∧
    (getTemplate cache name readRes parse = .ok (t, cache₂) →
      renderSegs t (mkTemplateData data name year ts) = .ok bodyHtml →
      ((jTruthy (effLayout opts.layout data dl) = false ∨
          layoutsHas layouts (effLayout opts.layout data dl) = none) →
        compileEmail cache layouts dl readRes parse name data opts year ts
          ic tt so = .ok (finishHtml opts ic tt so bodyHtml, cache₂)) ∧
      (jTruthy (effLayout opts.layout data dl) = true →
        layoutsHas layouts (effLayout opts.layout data dl) = some lt →
        renderSegs lt (setKey (mkTemplateData data name year ts) "body"
          (.jsafe bodyHtml)) = .ok lh →
        compileEmail cache layouts dl readRes parse name data opts year ts
          ic tt so = .ok (finishHtml opts ic tt so lh, cache₂))) := by
  refine ⟨?_, ?_, ?_, ?_⟩
  · intro h; simp [effLayout, h]
  · intro h1 h2; simp [effLayout, h1, h2]
  · intro h1 h2; simp [effLayout, h1, h2]
  · intro hg hr
    constructor
    · intro hcase
      rcases hcase with htr | hnone
      · simp [compileEmail, hg, hr, htr]
      · rcases htr : jTruthy (effLayout opts.layout data dl) with _ | _
        · simp [compileEmail, hg, hr, htr]
        · simp [compileEmail, hg, hr, htr, hnone]
    · intro htr hlay hr2
      simp [compileEmail, hg, hr, htr, hlay, hr2]

/-- Witness for C8: a compile whose options name an undefined layout
renders with the body output alone and succeeds. -/

theorem layout_resolution_witness :
    compileEmail [("welcome", [Seg.lit "Hi"])] [] "default" .notFound
        (fun _ => .ok []) "welcome" [] ⟨some "nope", none⟩ 2025 "T" id
        (fun _ => "txt") (fun _ => none) =
      .ok (⟨"Hi", "txt", none⟩, [("welcome", [Seg.lit "Hi"])]) := by
  have h := layout_resolution [("welcome", [Seg.lit "Hi"])] [] "default"
    .notFound (fun _ => .ok []) "welcome" [] ⟨some "nope", none⟩ 2025 "T" id
    (fun _ => "txt") (fun _ => none) "nope" "s" "Hi" "lh" [Seg.lit "Hi"] []
    [("welcome", [Seg.lit "Hi"])]
  have h2 := (h.2.2.2 rfl rfl).1 (Or.inr rfl)
  rw [h2]
  rfl

theorem renderSegs_lit (segs : List Seg) (h : allLit segs = true)
    (data : List (String × Jval)) :
    renderSegs segs data = .ok (litText segs) := by
  induction segs with
  | nil => rfl
  | cons sg rest ih =>
    cases sg with
    | lit s =>
      simp only [allLit] at h
      simp [renderSegs, litText, ih h, Except.map]
    | hvar k => simp [allLit] at h
    | hfail m => simp [allLit] at h

theorem getTemplate_ok_cases (cache : List (String × List Seg))
    (name : String) (readRes : ReadOutcome)
    (parse : String → Except String (List Seg)) (t : List Seg)
    (cache₂ : List (String × List Seg))
    (h : getTemplate cache name readRes parse = .ok (t, cache₂)) :
    (lookupKey cache name = some t ∧ cache₂ = cache) ∨
    (lookupKey cache name = none ∧ ∃ s, readRes = .content s ∧
      parse s = .ok t ∧ cache₂ = setKey cache name t) := by
  unfold getTemplate at h
  split at h
  · rename_i t₀ hl
    simp only [Except.ok.injEq, Prod.mk.injEq] at h
    obtain ⟨rfl, rfl⟩ := h
    exact Or.inl ⟨hl, rfl⟩
  · rename_i hl
    split at h
    · simp at h
    · simp at h
    · rename_i s
      split at h
      · simp at h
      · rename_i t₁ hp
        simp only [Except.ok.injEq, Prod.mk.injEq] at h
        obtain ⟨rfl, rfl⟩ := h
        exact Or.inr ⟨hl, s, rfl, hp, rfl⟩

/-- C9: for literal input (every template in play renders as literal
text), a compile followed immediately by a second compile with identical
arguments produces the byte-identical result (html, text and subject all
equal), even though the clock (year, timestamp) may have moved between
the calls; the second call is served from the template cache left by the
first and leaves it unchanged. -/

theorem compile_idempotent (cache layouts : List (String × List Seg))
    (dl : String) (readRes : ReadOutcome)
    (parse : String → Except String (List Seg)) (name : String)
    (data : List (String × Jval)) (opts : CompileOptions)
    (y1 y2 : Int) (ts1 ts2 : String) (ic tt : String → String)
    (so : String → Option String) (res : CompileResult)
    (cache' : List (String × List Seg))
    (hlitCache : ∀ u, lookupKey cache name = some u → allLit u = true)
    (hlitParse : ∀ s u, parse s = .ok u → allLit u = true)
    (hlitLay : ∀ ln u, lookupKey layouts ln = some u → allLit u = true)
    (hfirst : compileEmail cache layouts dl readRes parse name data opts
      y1 ts1 ic tt so = .ok (res, cache')) :
    compileEmail cache' layouts dl readRes parse name data opts y2 ts2
      ic tt so = .ok (res, cache') := by
  rcases hg : getTemplate cache name readRes parse with e | p
  · simp [compileEmail, hg] at hfirst
  obtain ⟨t, c₂⟩ := p
  have hcases := getTemplate_ok_cases cache name readRes parse t c₂ hg
  have hlt : allLit t = true := by
    rcases hcases with ⟨hc, rfl⟩ | ⟨hn, s, hrs, hp, rfl⟩
    · exact hlitCache t hc
    · exact hlitParse s t hp
  have hlook : lookupKey c₂ name = some t := by
    rcases hcases with ⟨hc, rfl⟩ | ⟨hn, s, hrs, hp, rfl⟩
    · exact hc
    · rw [lookupKey_setKey]; simp
  have hr1 := renderSegs_lit t hlt (mkTemplateData data name y1 ts1)
  have hr2 := renderSegs_lit t hlt (mkTemplateData data name y2 ts2)
  have hg2 : getTemplate c₂ name readRes parse = .ok (t, c₂) := by
    unfold getTemplate
    rw [hlook]
  rcases hlay : (if jTruthy (effLayout opts.layout data dl) then
      layoutsHas layouts (effLayout opts.layout data dl) else none)
    with _ | lt
  · simp only [compileEmail, hg, hr1, hlay] at hfirst
    simp only [Except.ok.injEq, Prod.mk.injEq] at hfirst
    obtain ⟨rfl, rfl⟩ := hfirst
    simp [compileEmail, hg2, hr2, hlay]
  · have hlay' : layoutsHas layouts (effLayout opts.layout data dl) =
        some lt := by
      rcases htr : jTruthy (effLayout opts.layout data dl) with _ | _ <;>
        rw [htr] at hlay
      · simp at hlay
      · simpa using hlay
    have hllit : allLit lt = true := by
      rcases heff : effLayout opts.layout data dl with _ | _ | _ | s' | _ | _ | _ <;>
        rw [heff] at hlay' <;> simp [layoutsHas] at hlay'
      exact hlitLay s' lt hlay'
    have hlr1 := renderSegs_lit lt hllit
      (setKey (mkTemplateData data name y1 ts1) "body" (.jsafe (litText t)))
    have hlr2 := renderSegs_lit lt hllit
      (setKey (mkTemplateData data name y2 ts2) "body" (.jsafe (litText t)))
    simp only [compileEmail, hg, hr1, hlay, hlr1] at hfirst
    simp only [Except.ok.injEq, Prod.mk.injEq] at hfirst
    obtain ⟨rfl, rfl⟩ := hfirst
    simp [compileEmail, hg2, hr2, hlay, hlr2]

/-- Witness for C9: a concrete literal template compiled twice at two
different clock readings returns the identical result. -/

theorem compile_idempotent_witness :
    compileEmail [("welcome", [Seg.lit "Hello"])] [] "default"
        (.content "Hello") (fun _ => .ok [Seg.lit "Hello"]) "welcome" []
        ⟨none, none⟩ 2026 "T2" id (fun x => x) (fun _ => none) =
      .ok (⟨"Hello", "Hello", none⟩, [("welcome", [Seg.lit "Hello"])]) := by
  have h := compile_idempotent [] [] "default" (.content "Hello")
    (fun _ => .ok [Seg.lit "Hello"]) "welcome" [] ⟨none, none⟩ 2025 2026
    "T1" "T2" id (fun x => x) (fun _ => none)
    ⟨"Hello", "Hello", none⟩ [("welcome", [Seg.lit "Hello"])]
    (by intro u hu; simp [lookupKey] at hu)
    (by intro s u hu; injection hu with he; rw [← he]; rfl)
    (by intro ln u hu; simp [lookupKey] at hu)
    rfl
  exact h

theorem mergeFields_lookup_of_not_mem (sfs : List (String × Jval)) :
    ∀ tfs k, k ∉ sfs.map Prod.fst →
      lookupKey (mergeFields tfs sfs) k = lookupKey tfs k := by
  induction sfs with
  | nil => intro tfs k _; simp [mergeFields]
  | cons p rest ih =>
    intro tfs k h
    obtain ⟨key, v⟩ := p
    simp only [List.map_cons, List.mem_cons, not_or] at h
    obtain ⟨hk1, hk2⟩ := h
    rcases v with _ | _ | _ | _ | _ | sfs' | _ <;>
      simp only [mergeFields] <;>
      rw [ih _ k hk2, lookupKey_setKey, if_neg hk1]

theorem mergeFields_lookup_of_mem (sfs : List (String × Jval)) :
    ∀ tfs k v, (sfs.map Prod.fst).Nodup → lookupKey sfs k = some v →
      lookupKey (mergeFields tfs sfs) k =
        some (match v with
          | Jval.jobj svf =>
            Jval.jobj (mergeFields (toSpreadObj (baseFor tfs k)) svf)
          | _ => v) := by
  induction sfs with
  | nil => intro tfs k v _ h; simp [lookupKey] at h
  | cons p rest ih =>
    intro tfs k v hnodup h
    obtain ⟨key, w⟩ := p
    rw [List.map_cons, List.nodup_cons] at hnodup
    obtain ⟨hnotin, hnd2⟩ := hnodup
    by_cases hk : key = k
    · subst hk
      rw [lookupKey, if_pos rfl] at h
      obtain rfl : w = v := Option.some.inj h
      rcases w with _ | _ | _ | _ | _ | svf | _ <;>
        simp only [mergeFields] <;>
        rw [mergeFields_lookup_of_not_mem rest _ key hnotin,
          lookupKey_setKey, if_pos rfl]
    · have hk' : ¬ k = key := fun hh => hk hh.symm
      rw [lookupKey, if_neg hk] at h
      have hbf : ∀ x, baseFor (setKey tfs key x) k = baseFor tfs k := by
        intro x
        unfold baseFor
        rw [lookupKey_setKey, if_neg hk']
      rcases w with _ | _ | _ | _ | _ | wf | _ <;>
        simp only [mergeFields] <;>
        rw [ih _ k v hnd2 h, hbf]

/-- C7 counterexample: when the base holds an array and the override a
plain object at the same key, the override does not replace the base
outright: the array is spread into an object (index keys) and the
override is merged into that, because _deepMerge tests only the source
side for plain-object-ness and recurses into the truthy base value. -/

theorem deep_merge_cex :
    deepMerge [("a", Jval.jarr [Jval.jnum 1, Jval.jnum 2])]
        [("a", Jval.jobj [("b", Jval.jnum 9)])] =
      [("a", Jval.jobj [("0", Jval.jnum 1), ("1", Jval.jnum 2),
        ("b", Jval.jnum 9)])] ∧
    [("a", Jval.jobj [("0", Jval.jnum 1), ("1", Jval.jnum 2),
        ("b", Jval.jnum 9)])] ≠
      [("a", Jval.jobj [("b", Jval.jnum 9)])] := by
  constructor
  · simp [deepMerge, mergeFields, baseFor, lookupKey, jTruthy, toSpreadObj,
      setKey, List.enum, List.enumFrom, show toString (0 : Nat) = "0" from rfl,
      show toString (1 : Nat) = "1" from rfl]
  · simp

/-- C7 (amended): the deep merge proceeds per key of the overrides: when
the override value is a plain object it is merged recursively into the
spread of the base value (the base value itself when both sides are
plain objects; index-keyed fields when the base is an array or string;
nothing when the base is absent or falsy); any non-object override value
(arrays and primitives included) replaces the base value outright; keys
present only in the base are preserved unchanged; and
loadWithOverrides(a mapsto (b 1, c 2)) with override (a mapsto (b 9))
yields a mapsto (b 9, c 2). -/

theorem deep_merge_semantics (tfs sfs tvf svf : List (String × Jval))
    (k : String) (v : Jval) :
    (deepMerge [("a", Jval.jobj [("b", Jval.jnum 1), ("c", Jval.jnum 2)])]
        [("a", Jval.jobj [("b", Jval.jnum 9)])] =
      [("a", Jval.jobj [("b", Jval.jnum 9), ("c", Jval.jnum 2)])]) ∧
    (k ∉ sfs.map Prod.fst →
      lookupKey (deepMerge tfs sfs) k = lookupKey tfs k) ∧
    ((sfs.map Prod.fst).Nodup → lookupKey tfs k = some (Jval.jobj tvf) →
      lookupKey sfs k = some (Jval.jobj svf) →
      lookupKey (deepMerge tfs sfs) k =
        some (Jval.jobj (mergeFields tvf svf))) ∧
    ((sfs.map Prod.fst).Nodup → lookupKey sfs k = some v →
      (∀ fs, v ≠ Jval.jobj fs) →
      lookupKey (deepMerge tfs sfs) k = some v) := by
  refine ⟨?_, ?_, ?_, ?_⟩
  · simp [deepMerge, mergeFields, baseFor, lookupKey, jTruthy, toSpreadObj,
      setKey]
  · exact mergeFields_lookup_of_not_mem sfs tfs k
  · intro hnd ht hs
    rw [deepMerge, mergeFields_lookup_of_mem sfs tfs k _ hnd hs]
    have hb : baseFor tfs k = Jval.jobj tvf := by
      unfold baseFor
      rw [ht]
      rfl
    rw [hb]
    rfl
  · intro hnd hs hnotobj
    rw [deepMerge, mergeFields_lookup_of_mem sfs tfs k v hnd hs]
    rcases v with _ | _ | _ | _ | _ | fs | _
    · rfl
    · rfl
    · rfl
    · rfl
    · rfl
    · exact absurd rfl (hnotobj fs)
    · rfl

/-- Witness for the amended C7: the spec's own example, driven through
the per-key characterization at key a. -/

theorem deep_merge_semantics_witness :
    lookupKey (deepMerge
        [("a", Jval.jobj [("b", Jval.jnum 1), ("c", Jval.jnum 2)])]
        [("a", Jval.jobj [("b", Jval.jnum 9)])]) "a" =
      some (Jval.jobj [("b", Jval.jnum 9), ("c", Jval.jnum 2)]) := by
  have h := deep_merge_semantics
    [("a", Jval.jobj [("b", Jval.jnum 1), ("c", Jval.jnum 2)])]
    [("a", Jval.jobj [("b", Jval.jnum 9)])]
    [("b", Jval.jnum 1), ("c", Jval.jnum 2)] [("b", Jval.jnum 9)]
    "a" Jval.jnull
  rw [h.2.2.1 (by simp) rfl rfl]
  simp [mergeFields, baseFor, lookupKey, jTruthy, toSpreadObj, setKey]

/-- C6 counterexample: a parse failure of the template-specific data file
propagates as the original rethrown error, not as a DataLoadError; the
json source path never constructs a DataLoadError at all. -/

theorem json_fallback_cex :
    loadFromJson (.invalid "Unexpected token") (.valid (Jval.jobj []))
        "welcome" = .error (.thrown "Unexpected token") ∧
    (LoadErr.thrown "Unexpected token").isDataLoadError = false :=
  ⟨rfl, rfl⟩

/-- C6 (amended): loading from the json source first reads the
template-specific file and returns its parsed contents; if that file is
absent it falls back to sample-data.json, returning its entry under the
template name when present and truthy, else its default entry when
present and truthy, else an empty object; a missing sample-data.json
also yields an empty object; a missing file at either stage is never an
error; and any other read or parse failure at either stage propagates to
the caller unchanged, as the original thrown error, never wrapped as a
DataLoadError. -/

theorem json_fallback_chain (spec fb : JsonFile) (name : String) (v : Jval)
    (entries : List (String × Jval)) (m : String) :
    (loadFromJson (.valid v) fb name = .ok v) ∧
    (loadFromJson .absent (.valid (Jval.jobj entries)) name =
      .ok (entryChain entries name)) ∧
    (loadFromJson .absent .absent name = .ok (Jval.jobj [])) ∧
    (loadFromJson (.invalid m) fb name = .error (.thrown m)) ∧
    (loadFromJson (.unreadable m) fb name = .error (.thrown m)) ∧
    (loadFromJson .absent (.invalid m) name = .error (.thrown m)) ∧
    (loadFromJson .absent (.unreadable m) name = .error (.thrown m)) ∧
    (exceptIsDataLoadError (loadFromJson spec fb name) = false) ∧
    (∀ e, lookupKey entries name = some e → jTruthy e = true →
      entryChain entries name = e) ∧
    (∀ d, lookupKey entries name = none →
      lookupKey entries "default" = some d → jTruthy d = true →
      entryChain entries name = d) ∧
    (lookupKey entries name = none →
      lookupKey entries "default" = none →
      entryChain entries name = Jval.jobj []) := by
  refine ⟨rfl, rfl, rfl, rfl, rfl, rfl, rfl, ?_, ?_, ?_, ?_⟩
  · rcases spec with _ | m' | m' | v' <;> rcases fb with _ | m'' | m'' | v'' <;> rfl
  · intro e he ht
    simp [entryChain, he, ht]
  · intro d hn hd ht
    simp [entryChain, hn, hd, ht]
  · intro hn hd
    simp [entryChain, hn, hd]

/-- Witness for the amended C6: a concrete fallback file serving the
default entry for an unknown template name. -/

theorem json_fallback_chain_witness :
    loadFromJson .absent
        (.valid (Jval.jobj [("default", Jval.jobj [("x", Jval.jnum 1)])]))
        "welcome" = .ok (Jval.jobj [("x", Jval.jnum 1)]) := by
  have h := json_fallback_chain .absent
    (.valid (Jval.jobj [("default", Jval.jobj [("x", Jval.jnum 1)])]))
    "welcome" Jval.jnull [("default", Jval.jobj [("x", Jval.jnum 1)])] "m"
  rw [h.2.1, h.2.2.2.2.2.2.2.2.2.1 (Jval.jobj [("x", Jval.jnum 1)]) rfl rfl rfl]

theorem Heap.get_alloc (h : Heap) (o : HObj) (a : Nat) :
    (h.alloc o).1.get a = if h.next = a then some o else h.get a := rfl

theorem Heap.next_write (h : Heap) (a : Nat) (k : String) (r : HRef) :
    (h.write a k r).next = h.next := by
  unfold Heap.write
  split <;> rfl

theorem Heap.get_write_ne (h : Heap) (a a' : Nat) (k : String) (r : HRef)
    (hne : a' ≠ a) : (h.write a k r).get a' = h.get a' := by
  unfold Heap.write
  split
  · show lookupKey (setKey h.cells a _) a' = _
    rw [lookupKey_setKey, if_neg hne]
    rfl
  · rfl

theorem Heap.closed_get (h : Heap) (a : Nat) (o : HObj)
    (hc : h.closedB = true) (hg : h.get a = some o) :
    a < h.next ∧ ∀ kv ∈ o.fields, refBelow h.next kv.2 = true := by
  have hmem := lookupKey_mem h.cells a o hg
  rw [Heap.closedB, List.all_eq_true] at hc
  have hh := hc (a, o) hmem
  simp only [Bool.and_eq_true, decide_eq_true_eq, List.all_eq_true] at hh
  exact ⟨hh.1, fun kv hkv => hh.2 kv hkv⟩

/-- The merge writes only to objects it allocates itself: every address
allocated before the call keeps its exact cell, and the result is the
first fresh address. -/

theorem mergeH_frame : ∀ fuel : Nat,
    (∀ h t s h2 res, deepMergeH fuel h t s = some (h2, res) →
      res = h.next ∧ h.next < h2.next ∧
      ∀ a, a < h.next → h2.get a = h.get a) ∧
    (∀ h res sfs h2, res < h.next → mergeLoopH fuel h res sfs = some h2 →
      h.next ≤ h2.next ∧
      ∀ a, a < h.next → a ≠ res → h2.get a = h.get a) := by
  intro fuel
  induction fuel with
  | zero =>
    refine ⟨?_, ?_⟩
    · intro h t s h2 res hm
      simp [deepMergeH] at hm
    · intro h res sfs h2 _ hm
      cases sfs with
      | nil =>
        simp only [mergeLoopH, Option.some.injEq] at hm
        subst hm
        exact ⟨Nat.le_refl _, fun _ _ _ => rfl⟩
      | cons p rest => simp [mergeLoopH] at hm
  | succ fuel ih =>
    obtain ⟨ihD, ihL⟩ := ih
    refine ⟨?_, ?_⟩
    · intro h t s h2 res hm
      simp only [deepMergeH] at hm
      rcases hml : mergeLoopH fuel (h.alloc ⟨spreadFieldsH h t⟩).1
          (h.alloc ⟨spreadFieldsH h t⟩).2 (spreadFieldsH h s) with _ | h3
      · rw [hml] at hm
        exact absurd hm (by simp)
      · rw [hml] at hm
        simp only [Option.some.injEq, Prod.mk.injEq] at hm
        obtain ⟨rfl, rfl⟩ := hm
        have hres : (h.alloc ⟨spreadFieldsH h t⟩).2 <
            (h.alloc ⟨spreadFieldsH h t⟩).1.next := by
          simp [Heap.alloc]
        have hl := ihL _ _ _ _ hres hml
        refine ⟨rfl, ?_, ?_⟩
        · have h1 := hl.1
          simp only [Heap.alloc] at h1
          omega
        · intro a ha
          have hne : a ≠ (h.alloc ⟨spreadFieldsH h t⟩).2 := by
            simp only [Heap.alloc]
            omega
          rw [hl.2 a (by simp only [Heap.alloc]; omega) hne, Heap.get_alloc,
            if_neg (by omega)]
    · intro h res sfs h2 hres hm
      cases sfs with
      | nil =>
        simp only [mergeLoopH, Option.some.injEq] at hm
        subst hm
        exact ⟨Nat.le_refl _, fun _ _ _ => rfl⟩
      | cons p rest =>
        obtain ⟨k, sv⟩ := p
        cases sv with
        | prim v =>
          simp only [mergeLoopH] at hm
          have hres' : res < (h.write res k (.prim v)).next := by
            rw [Heap.next_write]
            exact hres
          have hl := ihL _ _ _ _ hres' hm
          have h1 := hl.1
          rw [Heap.next_write] at h1
          refine ⟨h1, ?_⟩
          intro a ha hne
          rw [hl.2 a (by rw [Heap.next_write]; exact ha) hne,
            Heap.get_write_ne _ _ _ _ _ hne]
        | addr b =>
          simp only [mergeLoopH] at hm
          rcases hdm : deepMergeH fuel h (mergeBase h res k) (.addr b)
            with _ | p
          · rw [hdm] at hm
            exact absurd hm (by simp)
          · obtain ⟨h3, m⟩ := p
            rw [hdm] at hm
            obtain ⟨hmeq, hnext3, hframe3⟩ := ihD _ _ _ _ _ hdm
            have hres3 : res < (Heap.write h3 res k (.addr m)).next := by
              rw [Heap.next_write]
              omega
            have hl := ihL _ _ _ _ hres3 hm
            have h1 := hl.1
            rw [Heap.next_write] at h1
            refine ⟨by omega, ?_⟩
            intro a ha hne
            rw [hl.2 a (by rw [Heap.next_write]; omega) hne,
              Heap.get_write_ne _ _ _ _ _ hne, hframe3 a ha]

/-- Reads through a closed heap see only addresses below next, so they
are unaffected by a change that touches no address below next. -/

theorem readH_stable (h h2 : Heap) (hc : h.closedB = true)
    (hagree : ∀ a, a < h.next → h2.get a = h.get a) :
    ∀ fuel : Nat,
      (∀ r, refBelow h.next r = true →
        readValH fuel h2 r = readValH fuel h r) ∧
      (∀ fs, (fs.all fun kv => refBelow h.next kv.2) = true →
        readFieldsH fuel h2 fs = readFieldsH fuel h fs) := by
  intro fuel
  induction fuel with
  | zero =>
    refine ⟨?_, ?_⟩
    · intro r _
      cases r with
      | prim v => rfl
      | addr a => rfl
    · intro fs _
      cases fs with
      | nil => rfl
      | cons p rest => rfl
  | succ fuel ih =>
    refine ⟨?_, ?_⟩
    · intro r hr
      cases r with
      | prim v => rfl
      | addr a =>
        simp only [refBelow, decide_eq_true_eq] at hr
        have hga := hagree a hr
        simp only [readValH, hga]
        rcases hg : h.get a with _ | o
        · rfl
        · have hcg := Heap.closed_get h a o hc hg
          have hall : (o.fields.all fun kv => refBelow h.next kv.2) = true := by
            rw [List.all_eq_true]
            intro kv hkv
            exact hcg.2 kv hkv
          show (match readFieldsH fuel h2 o.fields with
              | some fs => some (Jval.jobj fs)
              | none => none) =
            match readFieldsH fuel h o.fields with
            | some fs => some (Jval.jobj fs)
            | none => none
          rw [ih.2 o.fields hall]
    · intro fs hall
      cases fs with
      | nil => rfl
      | cons p rest =>
        obtain ⟨k, r⟩ := p
        simp only [List.all_cons, Bool.and_eq_true] at hall
        simp only [readFieldsH]
        rw [ih.1 r hall.1, ih.2 rest hall.2]

/-- C10: loadWithOverrides never mutates its inputs or the stored cache
entry.  Run on a closed heap with the base data being the object the
cache entry references (the reference load returned) and the overrides
any value of the heap, the deep merge returns a freshly allocated object
(the base is never the result), every address allocated before the call
keeps its exact cell, and the structural values of both the base data
and the overrides are unchanged afterwards; hence a subsequent load of
the same key, which returns the same stored reference, still reads the
un-overridden base data. -/

theorem load_with_overrides_frame (fuel rfuel : Nat) (h h2 : Heap)
    (baseAddr res : Nat) (ovr : HRef)
    (hclosed : h.closedB = true) (hbase : baseAddr < h.next)
    (hovr : refBelow h.next ovr = true)
    (hmerge : deepMergeH fuel h (.addr baseAddr) ovr = some (h2, res)) :
    res = h.next ∧ baseAddr ≠ res ∧
    (∀ a, a < h.next → h2.get a = h.get a) ∧
    readValH rfuel h2 (.addr baseAddr) = readValH rfuel h (.addr baseAddr) ∧
    readValH rfuel h2 ovr = readValH rfuel h ovr := by
  obtain ⟨hres, hnext, hframe⟩ := (mergeH_frame fuel).1 h _ _ h2 res hmerge
  have hstable := readH_stable h h2 hclosed hframe rfuel
  refine ⟨hres, by omega, hframe, ?_, ?_⟩
  · exact hstable.1 (.addr baseAddr) (by simp [refBelow, hbase])
  · exact hstable.1 ovr hovr

/-- Witness for C10: on the concrete heap, the merge succeeds with a
fresh result and the base and overrides objects read back unchanged. -/

theorem load_with_overrides_frame_witness :
    (deepMergeH 10 wHeap (.addr 1) (.addr 3)).elim False
      (fun p => p.2 = 4 ∧
        readValH 5 p.1 (.addr 1) = readValH 5 wHeap (.addr 1) ∧
        readValH 5 p.1 (.addr 3) = readValH 5 wHeap (.addr 3)) := by
  rcases hm : deepMergeH 10 wHeap (.addr 1) (.addr 3) with _ | p
  · have hs : (deepMergeH 10 wHeap (.addr 1) (.addr 3)).isSome = true := by
      decide
    rw [hm] at hs
    simp at hs
  · obtain ⟨h2, res⟩ := p
    have h := load_with_overrides_frame 10 5 wHeap h2 1 res (.addr 3)
      (by decide) (by decide) (by decide) hm
    simp only [Option.elim]
    exact ⟨h.1, h.2.2.2.1, h.2.2.2.2⟩

end EmailBuilder
